import Mathlib

/-!
Verification of the task state model of the todo application.

The embedding follows the JavaScript source:
- a task object literal becomes the structure `Task`;
- the root collection `{ personal: {..}, work: {..}, pool: [..] }` becomes
  `TaskStore`, where a date-keyed category object is an association list
  `CatMap` in insertion order (JavaScript objects keep insertion order and
  have unique keys; writing a fresh key appends it at the end);
- each lifecycle method of the planner class becomes a function on
  `TaskStore`; methods that can hit a JavaScript TypeError (reading a
  property of `undefined` when the addressed bucket object does not exist)
  return `Except Unit TaskStore`, with `Except.error ()` standing for the
  thrown TypeError;
- `Date.now()` results are passed in as explicit `freshId` arguments and
  the current viewed date key as an explicit `String` argument, since the
  source reads them from ambient state;
- `mergeTaskData` of the sync variant operates on the sync variant's own
  collection shape `{ personal, work }`, embedded as `SyncStore`.
-/

namespace Todo

/-- A task object literal of the source. Statuses are the literal strings
"pending", "in-progress" and "completed", as in the JavaScript code. -/
structure Task where
  id : Nat
  text : String
  status : String
  completed : Bool
  completedDate : Option String
  moved : Bool
  originalDate : Option String
deriving Repr, DecidableEq

/-- A date-keyed category object: association list in insertion order. -/
abbrev CatMap := List (String × List Task)

/-- Property read `obj[key]`: the value at the first entry with this key,
or `none` (JavaScript `undefined`) when the key is absent. -/
def getB : CatMap → String → Option (List Task)
  | [], _ => none
  | e :: m, k => if e.1 = k then some e.2 else getB m k

/-- Property write `obj[key] = v`: replace the value of the entry with this
key, or append a new entry at the end (JavaScript insertion order). -/
def setB : CatMap → String → List Task → CatMap
  | [], k, v => [(k, v)]
  | e :: m, k, v => if e.1 = k then (k, v) :: m else e :: setB m k v

/-- Mutate the first list element matching the predicate, as the source's
`tasks.find(..)` followed by in-place field assignments does. -/
def updateFirst (p : Task → Bool) (f : Task → Task) : List Task → List Task
  | [] => []
  | t :: ts => if p t then f t :: ts else t :: updateFirst p f ts

/-- Remove the first list element matching the predicate, as the source's
`tasks.findIndex(..)` followed by `tasks.splice(index, 1)` does;
identity when no element matches (the `index !== -1` guard). -/
def removeFirst (p : Task → Bool) : List Task → List Task
  | [] => []
  | t :: ts => if p t then ts else t :: removeFirst p ts

/-- Insertion `tasks.splice(i, 0, x)`: insert at position `i`, appending
when `i` is not less than the length. -/
def insertAt (n : Nat) (a : Task) : List Task → List Task
  | [] => [a]
  | x :: xs =>
    match n with
    | 0 => a :: x :: xs
    | n + 1 => x :: insertAt n a xs

/-- The root collection of the pool variant:
`{ personal: {}, work: {}, pool: [] }`. -/
structure TaskStore where
  personal : CatMap
  work : CatMap
  pool : List Task
deriving Repr, DecidableEq

/-- `this.tasks[category]` for the two date-keyed categories; `none` for
any other string (reading it in the source yields `undefined`). The pool
is an array, not a date map, and is accessed as `this.tasks.pool`. -/
def getCatMap (st : TaskStore) (c : String) : Option CatMap :=
  if c = "personal" then some st.personal
  else if c = "work" then some st.work
  else none

/-- Write back a date-keyed category map. -/
def setCatMap (st : TaskStore) (c : String) (m : CatMap) : TaskStore :=
  if c = "personal" then { st with personal := m }
  else if c = "work" then { st with work := m }
  else st

/-- Predicate of the source's `t => t.id === taskId`. -/
def idIs (taskId : Nat) (t : Task) : Bool := t.id == taskId

/-- The in-place field assignments of `completeTask`:
`completed = true; status = 'completed'; completedDate = dateKey`. -/
def completeFlip (k : String) (t : Task) : Task :=
  { t with
      completed := true, status := "completed", completedDate := some k }

/-- The in-place field assignments of `uncompleteTask`:
`completed = false; status = 'pending'; completedDate = null`. -/
def uncompleteFlip (t : Task) : Task :=
  { t with
      completed := false, status := "pending", completedDate := none }

/-- `addTask(category)` with the trimmed input text, viewed date key and
minted `Date.now()` identifier passed explicitly. Empty trimmed text is
rejected before any mutation. -/
def addTask (c k text : String) (freshId : Nat) (st : TaskStore) : TaskStore :=
  if text.trim = "" then st
  else
    match getCatMap st c with
    | none => st
    | some m =>
      let task : Task :=
        { id := freshId, text := text.trim, status := "pending",
          completed := false, completedDate := none, moved := false,
          originalDate := some k }
      setCatMap st c (setB m k ((getB m k).getD [] ++ [task]))

/-- `addPoolTask()`: pool tasks are created with no original date. -/
def addPoolTask (text : String) (freshId : Nat) (st : TaskStore) : TaskStore :=
  if text.trim = "" then st
  else
    let task : Task :=
      { id := freshId, text := text.trim, status := "pending",
        completed := false, completedDate := none, moved := false,
        originalDate := none }
    { st with pool := st.pool ++ [task] }

/-- `completePoolTask(taskId)`: splice the task out of the pool and push a
completed copy into `personal[dateKey]`, with both `completedDate` and
`originalDate` set to the viewed date key. -/
def completePoolTask (k : String) (taskId : Nat) (st : TaskStore) : TaskStore :=
  match st.pool.find? (idIs taskId) with
  | none => st
  | some task =>
    let completedTask :=
      { task with
          completed := true, status := "completed",
          completedDate := some k, originalDate := some k, moved := false }
    { st with
      pool := removeFirst (idIs taskId) st.pool,
      personal := setB st.personal k ((getB st.personal k).getD [] ++ [completedTask]) }

/-- `completeTask(category, taskId)`: dispatches pool completion; otherwise
reads `this.tasks[category][dateKey]` (TypeError when the bucket object is
missing) and mutates the found task in place. -/
def completeTask (c k : String) (taskId : Nat) (st : TaskStore) :
    Except Unit TaskStore :=
  if c = "pool" then .ok (completePoolTask k taskId st)
  else
    match getCatMap st c with
    | none => .error ()
    | some m =>
      match getB m k with
      | none => .error ()
      | some tasks =>
        match tasks.find? (idIs taskId) with
        | none => .ok st
        | some _ =>
          .ok (setCatMap st c (setB m k (updateFirst (idIs taskId) (completeFlip k) tasks)))

/-- `uncompleteTask(category, taskId)`: resets the task to pending; the
pool branch reads `this.tasks.pool` and cannot throw. -/
def uncompleteTask (c k : String) (taskId : Nat) (st : TaskStore) :
    Except Unit TaskStore :=
  if c = "pool" then
    match st.pool.find? (idIs taskId) with
    | none => .ok st
    | some _ =>
      .ok { st with pool := updateFirst (idIs taskId) uncompleteFlip st.pool }
  else
    match getCatMap st c with
    | none => .error ()
    | some m =>
      match getB m k with
      | none => .error ()
      | some tasks =>
        match tasks.find? (idIs taskId) with
        | none => .ok st
        | some _ =>
          .ok (setCatMap st c (setB m k (updateFirst (idIs taskId) uncompleteFlip tasks)))

/-- The in-place status flip of `toggleTaskInProgress`: swap pending and
in-progress, leave any other status unchanged, and unconditionally assign
`task.completed = false` afterwards, exactly as the source does. -/
def toggleFlip (t : Task) : Task :=
  { t with
    status :=
      if t.status = "in-progress" then "pending"
      else if t.status = "pending" then "in-progress"
      else t.status,
    completed := false }

/-- `toggleTaskInProgress(category, taskId)`. -/
def toggleTaskInProgress (c k : String) (taskId : Nat) (st : TaskStore) :
    Except Unit TaskStore :=
  if c = "pool" then
    match st.pool.find? (idIs taskId) with
    | none => .ok st
    | some _ =>
      .ok { st with pool := updateFirst (idIs taskId) toggleFlip st.pool }
  else
    match getCatMap st c with
    | none => .error ()
    | some m =>
      match getB m k with
      | none => .error ()
      | some tasks =>
        match tasks.find? (idIs taskId) with
        | none => .ok st
        | some _ =>
          .ok (setCatMap st c (setB m k (updateFirst (idIs taskId) toggleFlip tasks)))

/-- `editTask(category, taskId, newText)`: replaces the text with the
trimmed replacement when the task is found and the trimmed text is
non-empty (`if (task && newText.trim())`). -/
def editTask (c k : String) (taskId : Nat) (newText : String) (st : TaskStore) :
    Except Unit TaskStore :=
  if c = "pool" then
    match st.pool.find? (idIs taskId) with
    | none => .ok st
    | some _ =>
      if newText.trim = "" then .ok st
      else
        .ok { st with
              pool := updateFirst (idIs taskId)
                (fun t => { t with text := newText.trim }) st.pool }
  else
    match getCatMap st c with
    | none => .error ()
    | some m =>
      match getB m k with
      | none => .error ()
      | some tasks =>
        match tasks.find? (idIs taskId) with
        | none => .ok st
        | some _ =>
          if newText.trim = "" then .ok st
          else
            .ok (setCatMap st c (setB m k (updateFirst (idIs taskId)
              (fun t => { t with text := newText.trim }) tasks)))

/-- `moveTaskToDate(category, taskId, daysOffset)`: `viewKey` is
`this.getDateKey()` and `tgtKey` is the key of the viewed date shifted by
the offset, both computed by `formatDateKey` in the source. The found
source task is marked `moved = true` in place and a copy with a fresh id
and `moved = false` is pushed onto the destination bucket. The copy is
spread from the already-marked source object with `moved` overridden back
to `false` and `originalDate` re-assigned from the source, so it equals
the original task with only `id` and `moved` replaced. -/
def moveTaskToDate (c viewKey tgtKey : String) (taskId freshId : Nat)
    (st : TaskStore) : Except Unit TaskStore :=
  match getCatMap st c with
  | none => .error ()
  | some m =>
    match getB m viewKey with
    | none => .error ()
    | some tasks =>
      match tasks.find? (idIs taskId) with
      | none => .ok st
      | some task =>
        let m1 := setB m viewKey
          (updateFirst (idIs taskId) (fun t => { t with moved := true }) tasks)
        let newTask := { task with id := freshId, moved := false }
        .ok (setCatMap st c (setB m1 tgtKey ((getB m1 tgtKey).getD [] ++ [newTask])))

/-- `moveTaskBetweenCategories(fromCategory, toCategory, taskId)`: splice
out of the source bucket at the viewed date, push a copy with a fresh id
and `moved = false` onto the destination bucket at the same date key. -/
def moveTaskBetweenCategories (cFrom cTo k : String) (taskId freshId : Nat)
    (st : TaskStore) : Except Unit TaskStore :=
  match getCatMap st cFrom with
  | none => .error ()
  | some mFrom =>
    match getB mFrom k with
    | none => .error ()
    | some fromTasks =>
      match fromTasks.find? (idIs taskId) with
      | none => .ok st
      | some task =>
        let st1 := setCatMap st cFrom (setB mFrom k (removeFirst (idIs taskId) fromTasks))
        let newTask := { task with id := freshId, moved := false }
        match getCatMap st1 cTo with
        | none => .ok st1
        | some mTo =>
          .ok (setCatMap st1 cTo (setB mTo k ((getB mTo k).getD [] ++ [newTask])))

/-- `movePoolTaskToDate(targetCategory, taskId)`: splice out of the pool,
push into the target category at the viewed date with a fresh id and
`originalDate` set to that date key. -/
def movePoolTaskToDate (cTo k : String) (taskId freshId : Nat)
    (st : TaskStore) : TaskStore :=
  match st.pool.find? (idIs taskId) with
  | none => st
  | some task =>
    let st1 := { st with pool := removeFirst (idIs taskId) st.pool }
    let newTask := { task with id := freshId, originalDate := some k, moved := false }
    match getCatMap st1 cTo with
    | none => st1
    | some m =>
      setCatMap st1 cTo (setB m k ((getB m k).getD [] ++ [newTask]))

/-- `movePoolTaskToSpecificDate(taskId, targetDate)`: like
`movePoolTaskToDate` but always targets the personal category at the
formatted target date key. -/
def movePoolTaskToSpecificDate (targetKey : String) (taskId freshId : Nat)
    (st : TaskStore) : TaskStore :=
  match st.pool.find? (idIs taskId) with
  | none => st
  | some task =>
    let newTask := { task with id := freshId, originalDate := some targetKey, moved := false }
    { st with
      pool := removeFirst (idIs taskId) st.pool,
      personal := setB st.personal targetKey
        ((getB st.personal targetKey).getD [] ++ [newTask]) }

/-- `moveTaskToPool(fromCategory, taskId)`: splice out of the source
bucket, append to the pool with a fresh id, no original date, and any
completed state reset back to pending. -/
def moveTaskToPool (cFrom k : String) (taskId freshId : Nat) (st : TaskStore) :
    Except Unit TaskStore :=
  match getCatMap st cFrom with
  | none => .error ()
  | some m =>
    match getB m k with
    | none => .error ()
    | some fromTasks =>
      match fromTasks.find? (idIs taskId) with
      | none => .ok st
      | some task =>
        let newTask :=
          { task with
              id := freshId, originalDate := none, moved := false,
              completed := false,
              status := if task.status = "completed" then "pending" else task.status,
              completedDate := none }
        .ok { setCatMap st cFrom (setB m k (removeFirst (idIs taskId) fromTasks)) with
              pool := st.pool ++ [newTask] }

/-- `deleteTask(category, taskId)`: splice out of the pool, or out of the
given category's bucket at the currently viewed date. -/
def deleteTask (c k : String) (taskId : Nat) (st : TaskStore) :
    Except Unit TaskStore :=
  if c = "pool" then
    .ok { st with pool := removeFirst (idIs taskId) st.pool }
  else
    match getCatMap st c with
    | none => .error ()
    | some m =>
      match getB m k with
      | none => .error ()
      | some tasks =>
        match tasks.find? (idIs taskId) with
        | none => .ok st
        | some _ =>
          .ok (setCatMap st c (setB m k (removeFirst (idIs taskId) tasks)))

/-- Index search of the source's `tasks.findIndex(t => t.id === id)`,
with `-1` modelled as `none`. -/
def idxOf? (p : Task → Bool) : List Task → Option Nat
  | [] => none
  | t :: ts => if p t then some 0 else (idxOf? p ts).map (· + 1)

/-- Removal `tasks.splice(i, 1)`: drop the element at position `i`,
identity when `i` is not less than the length. -/
def eraseAt : List Task → Nat → List Task
  | [], _ => []
  | _ :: xs, 0 => xs
  | x :: xs, n + 1 => x :: eraseAt xs n

/-- The splice-and-reinsert of `reorderTasks` on one bucket list: no-op
unless both ids resolve to distinct positions; then splice the dragged
task out and reinsert it relative to the target, decrementing the target
index when the dragged task preceded it. -/
def reorderList (tasks : List Task) (draggedId targetId : Nat) (insBefore : Bool) :
    List Task :=
  match idxOf? (idIs draggedId) tasks, idxOf? (idIs targetId) tasks,
        tasks.find? (idIs draggedId) with
  | some di, some ti, some dragged =>
    if di = ti then tasks
    else
      let rest := eraseAt tasks di
      let nti := if di < ti then ti - 1 else ti
      insertAt (if insBefore then nti else nti + 1) dragged rest
  | _, _, _ => tasks

/-- `reorderTasks(category, draggedTaskId, targetTaskId, insertBefore)`. -/
def reorderTasks (c k : String) (draggedId targetId : Nat) (insBefore : Bool)
    (st : TaskStore) : Except Unit TaskStore :=
  if c = "pool" then
    .ok { st with pool := reorderList st.pool draggedId targetId insBefore }
  else
    match getCatMap st c with
    | none => .error ()
    | some m =>
      match getB m k with
      | none => .error ()
      | some tasks =>
        .ok (setCatMap st c (setB m k (reorderList tasks draggedId targetId insBefore)))

/-- The core of `handleDownload`: `this.tasks = cloudData`, a wholesale
replacement of the local collection by the downloaded snapshot. -/
def pullTasks (cloudData : TaskStore) (_st : TaskStore) : TaskStore :=
  cloudData

/-- The sync variant's collection shape `{ personal: {}, work: {} }`. -/
structure SyncStore where
  personal : CatMap
  work : CatMap
deriving Repr, DecidableEq

/-- One iteration of the `cloudTasks.forEach` loop of `mergeTaskData`:
append the cloud task unless a task with its id is already present (the
`existsLocally` check runs against the bucket as already extended). -/
def addIfMissing (acc : List Task) (t : Task) : List Task :=
  if acc.any (idIs t.id) then acc else acc ++ [t]

/-- The inner loop of `mergeTaskData` on one bucket. -/
def mergeBucketTasks (l r : List Task) : List Task := r.foldl addIfMissing l

/-- One iteration of the `for (const date in cloudData[category])` loop:
adopt the cloud bucket wholesale when the local object lacks the key
(`!this.tasks[category][date]`), otherwise append the cloud tasks missing
by id. An existing empty local bucket is truthy in the source and is
therefore merged into, not replaced. -/
def mergeStep (acc : CatMap) (kv : String × List Task) : CatMap :=
  match getB acc kv.1 with
  | none => setB acc kv.1 kv.2
  | some l => setB acc kv.1 (mergeBucketTasks l kv.2)

/-- `mergeTaskData` restricted to one category object: iterate the cloud
object's date keys in order. -/
def mergeCatMap (loc cloud : CatMap) : CatMap := cloud.foldl mergeStep loc

/-- `mergeTaskData(cloudData)` of the sync variant: the cloud categories
are `personal` and `work`, merged independently. -/
def mergeTaskData (st cloudData : SyncStore) : SyncStore :=
  { personal := mergeCatMap st.personal cloudData.personal,
    work := mergeCatMap st.work cloudData.work }

/-! ## Dates

`formatDateKey(date)` in the source is `date.toISOString().split('T')[0]`:
the `YYYY-MM-DD` part of the ISO timestamp, which is expressed in UTC.
A JavaScript `Date` is an instant (milliseconds since the epoch, here
modelled at minute resolution) observed in an environment with a fixed
offset between local time and UTC. -/

/-- A JavaScript `Date` together with the environment's timezone:
`utcMinutes` is the instant in minutes since the Unix epoch, and
`tzOffsetMinutes` is the signed number of minutes to add to UTC to obtain
local wall-clock time. -/
structure JsDate where
  utcMinutes : Int
  tzOffsetMinutes : Int
deriving Repr, DecidableEq

/-- Proleptic Gregorian civil date `(year, month, day)` of a day count
relative to 1970-01-01, for day counts not before year 0400 of era 0
(all dates the application can manipulate). -/
def civilFromDays (z : Int) : Int × Nat × Nat :=
  let zn : Nat := (z + 719468).toNat
  let era := zn / 146097
  let doe := zn % 146097
  let yoe := (doe - doe / 1460 + doe / 36524 - doe / 146096) / 365
  let doy := doe - (365 * yoe + yoe / 4 - yoe / 100)
  let mp := (5 * doy + 2) / 153
  let d := doy - (153 * mp + 2) / 5 + 1
  let m := if mp < 10 then mp + 3 else mp - 9
  ((yoe : Int) + (era : Int) * 400 + (if m ≤ 2 then 1 else 0), m, d)

/-- Zero-pad a number to two digits. -/
def pad2 (n : Nat) : String :=
  if n < 10 then "0" ++ toString n else toString n

/-- Zero-pad a number to four digits. -/
def pad4 (n : Nat) : String :=
  if n < 10 then "000" ++ toString n
  else if n < 100 then "00" ++ toString n
  else if n < 1000 then "0" ++ toString n
  else toString n

/-- The `YYYY-MM-DD` string of a day count relative to the epoch. -/
def dateKeyOfDay (z : Int) : String :=
  match civilFromDays z with
  | (y, m, d) => pad4 y.toNat ++ "-" ++ pad2 m ++ "-" ++ pad2 d

/-- The UTC calendar day of an instant: `floor(minutes / 1440)`. -/
def utcDay (d : JsDate) : Int := d.utcMinutes.fdiv 1440

/-- The local calendar day of an instant under the environment offset. -/
def localDay (d : JsDate) : Int := (d.utcMinutes + d.tzOffsetMinutes).fdiv 1440

/-- `formatDateKey(date) = date.toISOString().split('T')[0]`: the date key
the source computes, taken from the UTC reading of the instant. -/
def formatDateKey (d : JsDate) : String := dateKeyOfDay (utcDay d)

/-- The date key described by the specification's words: the `YYYY-MM-DD`
string of the calendar date in local time. Stated for comparison with the
source's `formatDateKey`. -/
def localDateKeySpec (d : JsDate) : String := dateKeyOfDay (localDay d)

/-! ## Invariant predicates and measures -/

/-- The redundancy invariant of one task:
`completed == (status == "completed")`. -/
def taskInv (t : Task) : Prop := t.completed = (t.status == "completed")

instance (t : Task) : Decidable (taskInv t) := by unfold taskInv; infer_instance

/-- All tasks of a bucket satisfy the redundancy invariant. -/
def bucketInv (l : List Task) : Prop := ∀ t ∈ l, taskInv t

/-- All buckets of a date-keyed category map satisfy the invariant. -/
def mapInv (m : CatMap) : Prop := ∀ kv ∈ m, bucketInv kv.2

/-- The redundancy invariant over the whole collection. -/
def storeInv (st : TaskStore) : Prop :=
  mapInv st.personal ∧ mapInv st.work ∧ bucketInv st.pool

/-- The redundancy invariant over the sync variant's collection. -/
def syncInv (s : SyncStore) : Prop := mapInv s.personal ∧ mapInv s.work

/-- The pool invariant: pool tasks carry no original date and are never in
completed status. -/
def poolInv (st : TaskStore) : Prop :=
  ∀ t ∈ st.pool, t.originalDate = none ∧ t.status ≠ "completed"

/-- Number of tasks stored in a category map. -/
def countB (m : CatMap) : Nat := (m.map (fun kv => kv.2.length)).sum

/-- Total task count across both categories and the pool. -/
def totalCount (st : TaskStore) : Nat :=
  countB st.personal + countB st.work + st.pool.length

/-- All task ids of a category map, bucket by bucket. -/
def mapIds (m : CatMap) : List Nat := m.flatMap (fun kv => kv.2.map Task.id)

/-- All task ids of the sync variant's collection. -/
def syncIds (s : SyncStore) : List Nat := mapIds s.personal ++ mapIds s.work

/-- Every bucket of a category map has internally distinct task ids. -/
def bucketsUnique (m : CatMap) : Prop := ∀ kv ∈ m, (kv.2.map Task.id).Nodup

/-- Every bucket of the sync collection has internally distinct ids. -/
def syncBucketsUnique (s : SyncStore) : Prop :=
  bucketsUnique s.personal ∧ bucketsUnique s.work

instance (l : List Task) : Decidable (bucketInv l) := by
  unfold bucketInv; infer_instance

instance (m : CatMap) : Decidable (mapInv m) := by
  unfold mapInv; infer_instance

instance (st : TaskStore) : Decidable (storeInv st) := by
  unfold storeInv; infer_instance

instance (s : SyncStore) : Decidable (syncInv s) := by
  unfold syncInv; infer_instance

instance (st : TaskStore) : Decidable (poolInv st) := by
  unfold poolInv; infer_instance

instance (m : CatMap) : Decidable (bucketsUnique m) := by
  unfold bucketsUnique; infer_instance

instance (s : SyncStore) : Decidable (syncBucketsUnique s) := by
  unfold syncBucketsUnique; infer_instance

/-! ## Basic lemmas about the store primitives -/

theorem getB_setB_self (m : CatMap) (k : String) (v : List Task) :
    getB (setB m k v) k = some v := by
  induction m with
  | nil => simp [setB, getB]
  | cons e m ih =>
    by_cases h : e.1 = k
    · simp [setB, getB, h]
    · simp [setB, getB, h, ih]

theorem getB_setB_ne (m : CatMap) {k k' : String} (v : List Task) (h : k' ≠ k) :
    getB (setB m k v) k' = getB m k' := by
  have hne : ¬ k = k' := fun hk => h hk.symm
  induction m with
  | nil => simp [setB, getB, hne]
  | cons e m ih =>
    by_cases he : e.1 = k
    · subst he
      simp [setB, getB, hne]
    · simp only [setB, he, if_false, getB]
      by_cases he' : e.1 = k'
      · simp [he']
      · simp [he', ih]

theorem setB_eq_self {m : CatMap} {k : String} {v : List Task}
    (h : getB m k = some v) : setB m k v = m := by
  induction m with
  | nil => simp [getB] at h
  | cons e m ih =>
    by_cases he : e.1 = k
    · simp only [getB, he, if_true, Option.some.injEq] at h
      obtain ⟨k1, v1⟩ := e
      simp_all [setB]
    · simp only [getB, he, if_false] at h
      simp [setB, he, ih h]

theorem getB_mem {m : CatMap} {k : String} {v : List Task}
    (h : getB m k = some v) : (k, v) ∈ m := by
  induction m with
  | nil => simp [getB] at h
  | cons e m ih =>
    obtain ⟨k1, v1⟩ := e
    by_cases he : k1 = k
    · subst he
      simp [getB] at h
      subst h
      exact List.mem_cons_self _ _
    · simp only [getB, he, if_false] at h
      exact List.mem_cons_of_mem _ (ih h)

theorem mem_setB {m : CatMap} {k : String} {v : List Task} {e : String × List Task}
    (h : e ∈ setB m k v) : e ∈ m ∨ e = (k, v) := by
  induction m with
  | nil => simp [setB] at h; simp [h]
  | cons e1 m ih =>
    by_cases he : e1.1 = k
    · simp only [setB, he, if_true] at h
      rcases List.mem_cons.mp h with h | h
      · right; simp [h]
      · left; exact List.mem_cons_of_mem _ h
    · simp only [setB, he, if_false] at h
      rcases List.mem_cons.mp h with h | h
      · left; simp [h]
      · rcases ih h with h | h
        · left; exact List.mem_cons_of_mem _ h
        · right; exact h

theorem countB_setB_some {m : CatMap} {k : String} {w : List Task}
    (v : List Task) (h : getB m k = some w) :
    countB (setB m k v) + w.length = countB m + v.length := by
  induction m with
  | nil => simp [getB] at h
  | cons e m ih =>
    by_cases he : e.1 = k
    · subst he
      simp [getB] at h
      simp [setB, countB, h]
      omega
    · simp only [getB, he, if_false] at h
      have := ih h
      simp only [setB, he, if_false]
      simp [countB] at this ⊢
      omega

theorem countB_setB_none {m : CatMap} {k : String}
    (v : List Task) (h : getB m k = none) :
    countB (setB m k v) = countB m + v.length := by
  induction m with
  | nil => simp [setB, countB]
  | cons e m ih =>
    by_cases he : e.1 = k
    · simp [getB, he] at h
    · simp only [getB, he, if_false] at h
      have := ih h
      simp only [setB, he, if_false]
      simp [countB] at this ⊢
      omega

/-- Pushing one task onto a lazily created bucket raises the map's task
count by exactly one. -/
theorem countB_push (m : CatMap) (k : String) (t : Task) :
    countB (setB m k ((getB m k).getD [] ++ [t])) = countB m + 1 := by
  cases h : getB m k with
  | none =>
    have := countB_setB_none ((getB m k).getD [] ++ [t]) h
    simp [h] at this ⊢
    omega
  | some w =>
    have := countB_setB_some ((getB m k).getD [] ++ [t]) h
    simp [h, List.length_append] at this ⊢
    omega

theorem length_updateFirst (p : Task → Bool) (f : Task → Task) (l : List Task) :
    (updateFirst p f l).length = l.length := by
  induction l with
  | nil => rfl
  | cons t ts ih =>
    by_cases h : p t
    · simp [updateFirst, h]
    · simp [updateFirst, h, ih]

theorem updateFirst_forall {q : Task → Prop} {p : Task → Bool} {f : Task → Task}
    {l : List Task} (h : ∀ t ∈ l, q t) (hf : ∀ t ∈ l, p t = true → q (f t)) :
    ∀ t ∈ updateFirst p f l, q t := by
  induction l with
  | nil => simp [updateFirst]
  | cons t ts ih =>
    by_cases hp : p t
    · simp only [updateFirst, hp, if_true]
      intro u hu
      rcases List.mem_cons.mp hu with hu | hu
      · subst hu; exact hf t (by simp) hp
      · exact h u (List.mem_cons_of_mem _ hu)
    · simp only [updateFirst, hp, if_false]
      intro u hu
      rcases List.mem_cons.mp hu with hu | hu
      · subst hu; exact h u (by simp)
      · exact ih (fun t ht => h t (List.mem_cons_of_mem _ ht))
          (fun t ht => hf t (List.mem_cons_of_mem _ ht)) u hu

theorem mem_removeFirst {p : Task → Bool} {l : List Task} {t : Task}
    (h : t ∈ removeFirst p l) : t ∈ l := by
  induction l with
  | nil => simp [removeFirst] at h
  | cons u us ih =>
    by_cases hp : p u
    · simp only [removeFirst, hp, if_true] at h
      exact List.mem_cons_of_mem _ h
    · simp only [removeFirst, hp, if_false] at h
      rcases List.mem_cons.mp h with h | h
      · simp [h]
      · exact List.mem_cons_of_mem _ (ih h)

theorem length_removeFirst {p : Task → Bool} {l : List Task} {t : Task}
    (h : l.find? p = some t) : (removeFirst p l).length + 1 = l.length := by
  induction l with
  | nil => simp [List.find?] at h
  | cons u us ih =>
    by_cases hp : p u
    · simp [removeFirst, hp]
    · rw [List.find?_cons_of_neg _ (by simp [hp])] at h
      simp [removeFirst, hp, ih h]

theorem mem_insertAt {n : Nat} {a t : Task} {l : List Task}
    (h : t ∈ insertAt n a l) : t = a ∨ t ∈ l := by
  induction l generalizing n with
  | nil => simp [insertAt] at h; simp [h]
  | cons x xs ih =>
    cases n with
    | zero =>
      simp only [insertAt] at h
      rcases List.mem_cons.mp h with h | h
      · simp [h]
      · simp [h]
    | succ n =>
      simp only [insertAt] at h
      rcases List.mem_cons.mp h with h | h
      · right; simp [h]
      · rcases ih h with h | h
        · simp [h]
        · right; exact List.mem_cons_of_mem _ h

theorem idxOf?_eq_none {p : Task → Bool} {l : List Task}
    (h : l.find? p = none) : idxOf? p l = none := by
  induction l with
  | nil => rfl
  | cons u us ih =>
    by_cases hp : p u
    · rw [List.find?_cons_of_pos _ hp] at h
      cases h
    · rw [List.find?_cons_of_neg _ (by simp [hp])] at h
      simp [idxOf?, hp, ih h]

theorem mem_eraseAt {l : List Task} {i : Nat} {t : Task}
    (h : t ∈ eraseAt l i) : t ∈ l := by
  induction l generalizing i with
  | nil => simp [eraseAt] at h
  | cons x xs ih =>
    cases i with
    | zero => exact List.mem_cons_of_mem _ h
    | succ i =>
      rcases List.mem_cons.mp h with h | h
      · simp [h]
      · exact List.mem_cons_of_mem _ (ih h)

theorem mem_reorderList {tasks : List Task} {d tg : Nat} {ins : Bool} {t : Task}
    (h : t ∈ reorderList tasks d tg ins) : t ∈ tasks := by
  unfold reorderList at h
  split at h
  · rename_i di ti dragged hdi hti hdrag
    split at h
    · exact h
    · rcases mem_insertAt h with h | h
      · exact h ▸ List.mem_of_find?_eq_some hdrag
      · exact mem_eraseAt h
  · exact h

theorem reorderList_of_absent {tasks : List Task} {d tg : Nat} {ins : Bool}
    (h : tasks.find? (idIs d) = none) : reorderList tasks d tg ins = tasks := by
  unfold reorderList
  rw [idxOf?_eq_none h]

theorem updateFirst_mem_find? {p : Task → Bool} {f : Task → Task}
    {l : List Task} {t : Task} (h : l.find? p = some t) :
    f t ∈ updateFirst p f l := by
  induction l with
  | nil => simp [List.find?] at h
  | cons u us ih =>
    by_cases hp : p u
    · rw [List.find?_cons_of_pos _ hp] at h
      cases h
      simp [updateFirst, hp]
    · rw [List.find?_cons_of_neg _ (by simp [hp])] at h
      simp only [updateFirst, hp, if_false]
      exact List.mem_cons_of_mem _ (ih h)

theorem find?_eq_none_of_forall {p : Task → Bool} {l : List Task}
    (h : ∀ t ∈ l, ¬ p t = true) : l.find? p = none :=
  List.find?_eq_none.mpr h

/-- The two category names resolved by `getCatMap`. -/
theorem getCatMap_cases {st : TaskStore} {c : String} {m : CatMap}
    (h : getCatMap st c = some m) :
    (c = "personal" ∧ m = st.personal) ∨ (c = "work" ∧ m = st.work) := by
  unfold getCatMap at h
  by_cases hp : c = "personal"
  · rw [if_pos hp] at h
    exact Or.inl ⟨hp, by injection h with h; exact h.symm⟩
  · rw [if_neg hp] at h
    by_cases hw : c = "work"
    · rw [if_pos hw] at h
      exact Or.inr ⟨hw, by injection h with h; exact h.symm⟩
    · rw [if_neg hw] at h
      exact absurd h (by simp)

theorem setCatMap_personal (st : TaskStore) (m : CatMap) :
    setCatMap st "personal" m = { st with personal := m } := rfl

theorem setCatMap_work (st : TaskStore) (m : CatMap) :
    setCatMap st "work" m = { st with work := m } := rfl

/-- A category resolved by `getCatMap` is not the pool. -/
theorem ne_pool_of_getCatMap {st : TaskStore} {c : String} {m : CatMap}
    (h : getCatMap st c = some m) : ¬ c = "pool" := by
  rcases getCatMap_cases h with ⟨rfl, -⟩ | ⟨rfl, -⟩ <;> decide

/-- Writing back the map just read leaves the store unchanged. -/
theorem setCatMap_self {st : TaskStore} {c : String} {m : CatMap}
    (h : getCatMap st c = some m) : setCatMap st c m = st := by
  rcases getCatMap_cases h with ⟨rfl, rfl⟩ | ⟨rfl, rfl⟩ <;> rfl

theorem setCatMap_pool (st : TaskStore) (c : String) (m : CatMap) :
    (setCatMap st c m).pool = st.pool := by
  unfold setCatMap
  by_cases hp : c = "personal"
  · rw [if_pos hp]
  · rw [if_neg hp]
    by_cases hw : c = "work"
    · rw [if_pos hw]
    · rw [if_neg hw]

theorem getCatMap_setCatMap_self {st : TaskStore} {c : String} {m0 : CatMap}
    (m : CatMap) (h : getCatMap st c = some m0) :
    getCatMap (setCatMap st c m) c = some m := by
  rcases getCatMap_cases h with ⟨rfl, -⟩ | ⟨rfl, -⟩ <;> rfl

theorem getCatMap_setCatMap_ne {st : TaskStore} {c c' : String} (m : CatMap)
    (h : c' ≠ c) : getCatMap (setCatMap st c m) c' = getCatMap st c' := by
  unfold getCatMap setCatMap
  by_cases hp : c = "personal" <;> by_cases hw : c = "work" <;>
    by_cases hp' : c' = "personal" <;> by_cases hw' : c' = "work" <;>
      simp_all

theorem removeFirst_eq_self_of_find?_none {p : Task → Bool} {l : List Task}
    (h : l.find? p = none) : removeFirst p l = l := by
  induction l with
  | nil => rfl
  | cons u us ih =>
    by_cases hp : p u
    · rw [List.find?_cons_of_pos _ hp] at h
      cases h
    · rw [List.find?_cons_of_neg _ (by simp [hp])] at h
      simp [removeFirst, hp, ih h]

theorem find?_idIs_eq_none {l : List Task} {i : Nat}
    (h : ∀ t ∈ l, t.id ≠ i) : l.find? (idIs i) = none :=
  List.find?_eq_none.mpr (fun t ht hp => h t ht (by simpa [idIs] using hp))

theorem id_eq_of_find?_idIs {l : List Task} {i : Nat} {t : Task}
    (h : l.find? (idIs i) = some t) : t.id = i := by
  have := List.find?_some h
  simpa [idIs] using this

/-! ## Lemmas about the merge loop -/

theorem addIfMissing_of_any {l : List Task} {t : Task}
    (h : l.any (idIs t.id) = true) : addIfMissing l t = l := by
  simp [addIfMissing, h]

theorem addIfMissing_of_not_any {l : List Task} {t : Task}
    (h : ¬ l.any (idIs t.id) = true) : addIfMissing l t = l ++ [t] := by
  simp [addIfMissing, h]

theorem mergeBucketTasks_cons (l : List Task) (t : Task) (r : List Task) :
    mergeBucketTasks l (t :: r) = mergeBucketTasks (addIfMissing l t) r := by
  simp [mergeBucketTasks]

theorem mergeStep_none {acc : CatMap} {kv : String × List Task}
    (h : getB acc kv.1 = none) : mergeStep acc kv = setB acc kv.1 kv.2 := by
  simp [mergeStep, h]

theorem mergeStep_some {acc : CatMap} {kv : String × List Task} {l : List Task}
    (h : getB acc kv.1 = some l) :
    mergeStep acc kv = setB acc kv.1 (mergeBucketTasks l kv.2) := by
  simp [mergeStep, h]

theorem mergeCatMap_cons (loc : CatMap) (e : String × List Task) (cloud : CatMap) :
    mergeCatMap loc (e :: cloud) = mergeCatMap (mergeStep loc e) cloud := by
  simp [mergeCatMap]

theorem mergeBucketTasks_extends (r : List Task) :
    ∀ l, ∃ ext, mergeBucketTasks l r = l ++ ext := by
  induction r with
  | nil => exact fun l => ⟨[], by simp [mergeBucketTasks]⟩
  | cons t r ih =>
    intro l
    rw [mergeBucketTasks_cons]
    by_cases h : l.any (idIs t.id)
    · obtain ⟨ext, hext⟩ := ih l
      exact ⟨ext, by rw [addIfMissing_of_any h, hext]⟩
    · obtain ⟨ext, hext⟩ := ih (l ++ [t])
      refine ⟨[t] ++ ext, ?_⟩
      rw [addIfMissing_of_not_any h, hext, List.append_assoc]

theorem any_mergeBucketTasks {q : Task → Bool} {l : List Task} (r : List Task)
    (h : l.any q = true) : (mergeBucketTasks l r).any q = true := by
  obtain ⟨ext, hext⟩ := mergeBucketTasks_extends r l
  rw [hext, List.any_append, h, Bool.true_or]

theorem mergeBucketTasks_eq_self {l : List Task} {r : List Task}
    (h : ∀ t ∈ r, l.any (idIs t.id) = true) : mergeBucketTasks l r = l := by
  induction r with
  | nil => rfl
  | cons t r ih =>
    rw [mergeBucketTasks_cons, addIfMissing_of_any (h t (by simp))]
    exact ih (fun u hu => h u (List.mem_cons_of_mem _ hu))

theorem mergeBucketTasks_present {r : List Task} :
    ∀ l, ∀ t ∈ r, (mergeBucketTasks l r).any (idIs t.id) = true := by
  induction r with
  | nil => simp
  | cons u r ih =>
    intro l t ht
    rw [mergeBucketTasks_cons]
    rcases List.mem_cons.mp ht with rfl | ht
    · refine any_mergeBucketTasks r ?_
      by_cases h : l.any (idIs t.id)
      · rw [addIfMissing_of_any h]; exact h
      · rw [addIfMissing_of_not_any h]
        simp [idIs]
    · exact ih (addIfMissing l u) t ht

theorem nodup_concat {xs : List Nat} {a : Nat}
    (h : a ∉ xs) (hn : xs.Nodup) : (xs ++ [a]).Nodup := by
  rw [List.nodup_append]
  refine ⟨hn, List.nodup_singleton _, ?_⟩
  intro x hx hx1
  rw [List.mem_singleton.mp hx1] at hx
  exact h hx

theorem mergeBucketTasks_nodup {r : List Task} :
    ∀ l, (l.map Task.id).Nodup → ((mergeBucketTasks l r).map Task.id).Nodup := by
  induction r with
  | nil => exact fun l h => h
  | cons t r ih =>
    intro l h
    rw [mergeBucketTasks_cons]
    refine ih _ ?_
    by_cases ha : l.any (idIs t.id)
    · rw [addIfMissing_of_any ha]; exact h
    · have hid : t.id ∉ l.map Task.id := by
        intro hmem
        rcases List.mem_map.mp hmem with ⟨u, hu, hid⟩
        exact ha (List.any_eq_true.mpr ⟨u, hu, by simp [idIs, hid]⟩)
      rw [addIfMissing_of_not_any ha]
      simp only [List.map_append, List.map_cons, List.map_nil]
      exact nodup_concat hid h

theorem foldl_eq_self {α β : Type} {f : α → β → α} {acc : α} {l : List β}
    (h : ∀ e ∈ l, f acc e = acc) : l.foldl f acc = acc := by
  induction l with
  | nil => rfl
  | cons e l ih =>
    rw [List.foldl_cons, h e (by simp)]
    exact ih (fun e he => h e (List.mem_cons_of_mem _ he))

theorem mergeCatMap_extends {cloud : CatMap} :
    ∀ {loc : CatMap} {k : String} {w : List Task}, getB loc k = some w →
      ∃ ext, getB (mergeCatMap loc cloud) k = some (w ++ ext) := by
  induction cloud with
  | nil => exact fun h => ⟨[], by simpa [mergeCatMap]⟩
  | cons e cloud ih =>
    intro loc k w h
    rw [mergeCatMap_cons]
    by_cases he : k = e.1
    · subst he
      rw [mergeStep_some h]
      obtain ⟨ext1, hext1⟩ := mergeBucketTasks_extends e.2 w
      obtain ⟨ext2, hext2⟩ := ih (getB_setB_self loc e.1 (mergeBucketTasks w e.2))
      exact ⟨ext1 ++ ext2, by rw [hext2, hext1, List.append_assoc]⟩
    · have hg : getB (mergeStep loc e) k = some w := by
        cases hge : getB loc e.1 with
        | none => rw [mergeStep_none hge, getB_setB_ne _ _ he, h]
        | some l => rw [mergeStep_some hge, getB_setB_ne _ _ he, h]
      exact ih hg

theorem mergeCatMap_present {cloud : CatMap} :
    ∀ {loc : CatMap} {k : String} {v : List Task}, (k, v) ∈ cloud →
      ∃ w, getB (mergeCatMap loc cloud) k = some w ∧
        ∀ t ∈ v, w.any (idIs t.id) = true := by
  induction cloud with
  | nil => simp
  | cons e cloud ih =>
    intro loc k v hmem
    rw [mergeCatMap_cons]
    rcases List.mem_cons.mp hmem with heq | hmem
    · have hk : e.1 = k := by rw [← heq]
      have hv : e.2 = v := by rw [← heq]
      have hafter : ∃ w0, getB (mergeStep loc e) k = some w0 ∧
          ∀ t ∈ v, w0.any (idIs t.id) = true := by
        cases hge : getB loc e.1 with
        | none =>
          refine ⟨v, ?_, ?_⟩
          · rw [mergeStep_none hge, hk, ← hv]
            exact getB_setB_self _ _ _
          · exact fun t ht => List.any_eq_true.mpr ⟨t, ht, by simp [idIs]⟩
        | some l =>
          refine ⟨mergeBucketTasks l v, ?_, ?_⟩
          · rw [mergeStep_some hge, hk, ← hv]
            exact getB_setB_self _ _ _
          · exact fun t ht => mergeBucketTasks_present l t ht
      obtain ⟨w0, hw0, hall⟩ := hafter
      obtain ⟨ext, hext⟩ := mergeCatMap_extends hw0
      refine ⟨w0 ++ ext, hext, ?_⟩
      intro t ht
      rw [List.any_append, hall t ht, Bool.true_or]
    · exact ih hmem

theorem mergeCatMap_idem (loc cloud : CatMap) :
    mergeCatMap (mergeCatMap loc cloud) cloud = mergeCatMap loc cloud := by
  conv_lhs => rw [mergeCatMap]
  refine foldl_eq_self ?_
  intro e he
  obtain ⟨w, hw, hall⟩ := @mergeCatMap_present cloud loc e.1 e.2 he
  rw [mergeStep_some hw, show mergeBucketTasks w e.2 = w from
    mergeBucketTasks_eq_self hall]
  exact setB_eq_self hw

theorem bucketsUnique_setB {m : CatMap} {k : String} {v : List Task}
    (hm : bucketsUnique m) (hv : (v.map Task.id).Nodup) :
    bucketsUnique (setB m k v) := by
  intro kv hkv
  rcases mem_setB hkv with h | h
  · exact hm kv h
  · rw [h]
    exact hv

theorem mergeCatMap_bucketsUnique {cloud : CatMap} :
    ∀ {loc}, bucketsUnique loc → bucketsUnique cloud →
      bucketsUnique (mergeCatMap loc cloud) := by
  induction cloud with
  | nil => exact fun h _ => h
  | cons e cloud ih =>
    intro loc hloc hcloud
    rw [mergeCatMap_cons]
    refine ih ?_ (fun kv hkv => hcloud kv (List.mem_cons_of_mem _ hkv))
    cases hge : getB loc e.1 with
    | none =>
      rw [mergeStep_none hge]
      exact bucketsUnique_setB hloc (hcloud e (by simp))
    | some l =>
      rw [mergeStep_some hge]
      exact bucketsUnique_setB hloc
        (mergeBucketTasks_nodup l (hloc (e.1, l) (getB_mem hge)))

theorem mapInv_setB {m : CatMap} {k : String} {v : List Task}
    (hm : mapInv m) (hv : bucketInv v) : mapInv (setB m k v) := by
  intro kv hkv
  rcases mem_setB hkv with h | h
  · exact hm kv h
  · rw [h]
    exact hv

theorem bucketInv_mergeBucketTasks {l r : List Task}
    (hl : bucketInv l) (hr : bucketInv r) : bucketInv (mergeBucketTasks l r) := by
  induction r generalizing l with
  | nil => exact hl
  | cons t r ih =>
    rw [mergeBucketTasks_cons]
    refine ih ?_ (fun u hu => hr u (List.mem_cons_of_mem _ hu))
    intro u hu
    by_cases h : l.any (idIs t.id)
    · rw [addIfMissing_of_any h] at hu
      exact hl u hu
    · rw [addIfMissing_of_not_any h] at hu
      rcases List.mem_append.mp hu with hu | hu
      · exact hl u hu
      · rw [List.mem_singleton.mp hu]
        exact hr t (by simp)

theorem mergeCatMap_mapInv {cloud : CatMap} :
    ∀ {loc}, mapInv loc → mapInv cloud → mapInv (mergeCatMap loc cloud) := by
  induction cloud with
  | nil => exact fun h _ => h
  | cons e cloud ih =>
    intro loc hloc hcloud
    rw [mergeCatMap_cons]
    refine ih ?_ (fun kv hkv => hcloud kv (List.mem_cons_of_mem _ hkv))
    cases hge : getB loc e.1 with
    | none =>
      rw [mergeStep_none hge]
      exact mapInv_setB hloc (hcloud e (by simp))
    | some l =>
      rw [mergeStep_some hge]
      exact mapInv_setB hloc
        (bucketInv_mergeBucketTasks
          (hloc (e.1, l) (getB_mem hge)) (hcloud e (by simp)))


/-! ## C1 helpers -/

/-- No task carrying the given id anywhere in the collection is in
completed status (the UI guarantee before a progress toggle: the toggle
affordance is only rendered for pending and in-progress tasks). -/
def noCompletedWithId (st : TaskStore) (i : Nat) : Prop :=
  (∀ t ∈ st.pool, t.id = i → t.status ≠ "completed") ∧
  (∀ kv ∈ st.personal, ∀ t ∈ kv.2, t.id = i → t.status ≠ "completed") ∧
  (∀ kv ∈ st.work, ∀ t ∈ kv.2, t.id = i → t.status ≠ "completed")

instance (st : TaskStore) (i : Nat) : Decidable (noCompletedWithId st i) := by
  unfold noCompletedWithId; infer_instance

theorem mapInv_of_getCatMap {st : TaskStore} {c : String} {m : CatMap}
    (hinv : storeInv st) (hc : getCatMap st c = some m) : mapInv m := by
  rcases getCatMap_cases hc with ⟨rfl, rfl⟩ | ⟨rfl, rfl⟩
  · exact hinv.1
  · exact hinv.2.1

theorem storeInv_setCatMap {st : TaskStore} {c : String} {m0 : CatMap}
    (m : CatMap) (hc : getCatMap st c = some m0) (hinv : storeInv st)
    (hm : mapInv m) : storeInv (setCatMap st c m) := by
  rcases getCatMap_cases hc with ⟨rfl, -⟩ | ⟨rfl, -⟩
  · exact ⟨hm, hinv.2.1, hinv.2.2⟩
  · exact ⟨hinv.1, hm, hinv.2.2⟩

theorem bucketInv_of_store {st : TaskStore} {c : String} {m : CatMap}
    {k : String} {l : List Task} (hinv : storeInv st)
    (hc : getCatMap st c = some m) (hb : getB m k = some l) : bucketInv l :=
  mapInv_of_getCatMap hinv hc (k, l) (getB_mem hb)

theorem bucketInv_append {l1 l2 : List Task}
    (h1 : bucketInv l1) (h2 : bucketInv l2) : bucketInv (l1 ++ l2) := by
  intro t ht
  rcases List.mem_append.mp ht with ht | ht
  · exact h1 t ht
  · exact h2 t ht

theorem bucketInv_singleton {t : Task} (h : taskInv t) : bucketInv [t] := by
  intro u hu
  rw [List.mem_singleton.mp hu]
  exact h

theorem bucketInv_getD {m : CatMap} (k : String) (hm : mapInv m) :
    bucketInv ((getB m k).getD []) := by
  cases h : getB m k with
  | none => intro t ht; cases ht
  | some w => exact hm (k, w) (getB_mem h)

theorem bucketInv_removeFirst {p : Task → Bool} {l : List Task}
    (h : bucketInv l) : bucketInv (removeFirst p l) :=
  fun t ht => h t (mem_removeFirst ht)

theorem bucketInv_reorderList {tasks : List Task} {d tg : Nat} {ins : Bool}
    (h : bucketInv tasks) : bucketInv (reorderList tasks d tg ins) :=
  fun t ht => h t (mem_reorderList ht)

theorem taskInv_completeFlip (k : String) (t : Task) :
    taskInv (completeFlip k t) := by
  simp [taskInv, completeFlip]

theorem taskInv_uncompleteFlip (t : Task) : taskInv (uncompleteFlip t) := by
  simp [taskInv, uncompleteFlip]

theorem taskInv_toggleFlip {t : Task} (h : t.status ≠ "completed") :
    taskInv (toggleFlip t) := by
  by_cases h1 : t.status = "in-progress"
  · simp [taskInv, toggleFlip, h1]
  · by_cases h2 : t.status = "pending"
    · simp [taskInv, toggleFlip, h1, h2]
    · simp [taskInv, toggleFlip, h1, h2, h]

theorem taskInv_poolReset (task : Task) (freshId : Nat) :
    taskInv { task with
                id := freshId, originalDate := none, moved := false,
                completed := false,
                status := if task.status = "completed" then "pending"
                          else task.status,
                completedDate := none } := by
  by_cases hs : task.status = "completed" <;> simp [taskInv, hs]

/-- The invariant of a task is untouched by the copies the move operations
make: only `id`, `moved` and date fields change. -/
theorem taskInv_idMoved {t : Task} (h : taskInv t) (i : Nat) (b : Bool) :
    taskInv { t with id := i, moved := b } := h

theorem taskInv_movedTrue {t : Task} (h : taskInv t) :
    taskInv { t with moved := true } := h

theorem taskInv_textSet {t : Task} (h : taskInv t) (s : String) :
    taskInv { t with text := s } := h

/-- The completed copy a pool completion pushes satisfies the invariant. -/
theorem taskInv_poolCompleted (task : Task) (k : String) :
    taskInv { task with
                completed := true, status := "completed",
                completedDate := some k, originalDate := some k,
                moved := false } := by
  simp [taskInv]

theorem taskInv_poolOut {t : Task} (h : taskInv t) (i : Nat)
    (o : Option String) (b : Bool) :
    taskInv { t with id := i, originalDate := o, moved := b } := h

/-- Invariant preservation for `completePoolTask` on its own. -/
theorem storeInv_completePoolTask (k : String) (taskId : Nat) {st : TaskStore}
    (hinv : storeInv st) : storeInv (completePoolTask k taskId st) := by
  unfold completePoolTask
  split
  · exact hinv
  · refine ⟨?_, hinv.2.1, bucketInv_removeFirst hinv.2.2⟩
    exact mapInv_setB hinv.1
      (bucketInv_append (bucketInv_getD _ hinv.1)
        (bucketInv_singleton (taskInv_poolCompleted _ _)))

/-! ## Concrete fixtures used by the claim theorems -/

/-- A pending task with id 1 and text "A" under 2024-01-01. -/
def taskA : Task :=
  { id := 1, text := "A", status := "pending", completed := false,
    completedDate := none, moved := false, originalDate := some "2024-01-01" }

/-- The remote copy of id 1 with edited text. -/
def taskAChanged : Task := { taskA with text := "A-changed" }

/-- A remote-only task with id 2 and text "B". -/
def taskB : Task := { taskA with id := 2, text := "B" }

/-- A local task with id 1 under the personal 2024-01-01 bucket. -/
def syncLocal : SyncStore :=
  { personal := [("2024-01-01", [taskA])], work := [] }

/-- The remote snapshot of the merge scenario: id 1 with changed text plus
a new id 2 in the same bucket. -/
def syncRemote : SyncStore :=
  { personal := [("2024-01-01", [taskAChanged, taskB])], work := [] }

/-- A remote snapshot holding the same id 1 under a different date key. -/
def syncRemoteOtherDay : SyncStore :=
  { personal := [("2024-01-02", [{ taskA with text := "copy" }])], work := [] }

/-! ## C9 -/

/-- C9: the sync merge is idempotent — merging the same remote snapshot a
second time leaves the collection produced by the first merge unchanged,
for every local collection and every remote snapshot. -/
theorem c9_merge_idempotent (st cloudData : SyncStore) :
    mergeTaskData (mergeTaskData st cloudData) cloudData = mergeTaskData st cloudData := by
  unfold mergeTaskData
  exact congrArg₂ SyncStore.mk
    (mergeCatMap_idem st.personal cloudData.personal)
    (mergeCatMap_idem st.work cloudData.work)

/-! ## C4 -/

/-- C4: the merge never removes a local task and never overwrites a local
task whose id also occurs remotely — each pre-existing local bucket is an
unchanged initial segment of the merged bucket — and, in the concrete
scenario, the bucket local personal 2024-01-01 with id 1 text "A" merged
with a remote bucket holding id 1 text "A-changed" plus id 2 yields id 1
still with text "A" and id 2 appended. -/
theorem c4_merge_preserves_local :
    (∀ st cloudData : SyncStore, ∀ k w,
      (getB st.personal k = some w →
        ∃ ext, getB (mergeTaskData st cloudData).personal k = some (w ++ ext)) ∧
      (getB st.work k = some w →
        ∃ ext, getB (mergeTaskData st cloudData).work k = some (w ++ ext))) ∧
    (mergeTaskData syncLocal syncRemote).personal = [("2024-01-01", [taskA, taskB])] := by
  constructor
  · exact fun st cloudData k w =>
      ⟨fun h => mergeCatMap_extends h, fun h => mergeCatMap_extends h⟩
  · decide

/-- Witness for C4: the general preservation statement applied to the
concrete scenario collections. -/
theorem c4_merge_preserves_local_witness :
    ∃ ext, getB (mergeTaskData syncLocal syncRemote).personal "2024-01-01"
      = some ([taskA] ++ ext) :=
  (c4_merge_preserves_local.1 syncLocal syncRemote "2024-01-01" [taskA]).1 rfl

/-! ## C3 -/

/-- C3 counterexample: both the local collection and the remote snapshot
have globally distinct ids, yet after the merge the id 1 occurs in two
different buckets of the collection — the merge checks ids only within a
bucket, so collection-wide uniqueness does not survive it. -/
theorem c3_counterexample :
    (syncIds syncLocal).Nodup ∧ (syncIds syncRemoteOtherDay).Nodup ∧
    ¬ (syncIds (mergeTaskData syncLocal syncRemoteOtherDay)).Nodup :=
  ⟨by decide, by decide, by decide⟩

/-- C3 as amended: after the merge, ids remain distinct within every
single bucket, provided every local and every remote bucket had internally
distinct ids; uniqueness across different buckets is not maintained. -/
theorem c3_bucketwise_unique (st cloudData : SyncStore)
    (hl : syncBucketsUnique st) (hc : syncBucketsUnique cloudData) :
    syncBucketsUnique (mergeTaskData st cloudData) :=
  ⟨mergeCatMap_bucketsUnique hl.1 hc.1, mergeCatMap_bucketsUnique hl.2 hc.2⟩

/-- Witness for C3: the amended theorem applied to the concrete
collections of the counterexample. -/
theorem c3_bucketwise_unique_witness :
    syncBucketsUnique (mergeTaskData syncLocal syncRemoteOtherDay) :=
  c3_bucketwise_unique syncLocal syncRemoteOtherDay (by decide) (by decide)

/-! ## C7 -/

/-- An instant late in the evening of 2024-01-01 local time in a zone five
hours west of UTC: the UTC reading is already 2024-01-02, 04:00. -/
def eveningDate : JsDate :=
  { utcMinutes := 19724 * 1440 + 240, tzOffsetMinutes := -300 }

/-- C7 counterexample: the source key is the UTC day of the instant, not
the local calendar day — at 23:00 local on 2024-01-01 in a UTC-5 zone the
code addresses the bucket "2024-01-02" while the local calendar day is
"2024-01-01". -/
theorem c7_counterexample :
    formatDateKey eveningDate = "2024-01-02" ∧
    localDateKeySpec eveningDate = "2024-01-01" ∧
    formatDateKey eveningDate ≠ localDateKeySpec eveningDate :=
  ⟨by decide, by decide, by decide⟩

/-- C7 as amended: the date key is UTC-normalized — it is a function of
the instant alone, unchanged under any environment timezone offset — and
it agrees with the local-calendar-day key exactly on those instants whose
local calendar day coincides with the UTC day. -/
theorem c7_key_is_utc :
    (∀ m tz1 tz2 : Int,
      formatDateKey { utcMinutes := m, tzOffsetMinutes := tz1 }
        = formatDateKey { utcMinutes := m, tzOffsetMinutes := tz2 }) ∧
    (∀ d : JsDate, localDay d = utcDay d → formatDateKey d = localDateKeySpec d) := by
  constructor
  · intro m tz1 tz2
    rfl
  · intro d h
    unfold formatDateKey localDateKeySpec
    rw [h]

/-- Witness for C7: at noon UTC with offset zero the two keys agree. -/
theorem c7_key_is_utc_witness :
    formatDateKey { utcMinutes := 19723 * 1440 + 720, tzOffsetMinutes := 0 }
      = localDateKeySpec { utcMinutes := 19723 * 1440 + 720, tzOffsetMinutes := 0 } :=
  c7_key_is_utc.2 { utcMinutes := 19723 * 1440 + 720, tzOffsetMinutes := 0 } (by decide)

/-! ## Further fixtures over the full collection -/

/-- A pending dated task with the given id. -/
def pendingTask (i : Nat) : Task :=
  { id := i, text := "t", status := "pending", completed := false,
    completedDate := none, moved := false, originalDate := some "2024-01-01" }

/-- The canonical empty collection `{ personal: {}, work: {}, pool: [] }`. -/
def emptyStore : TaskStore := { personal := [], work := [], pool := [] }

/-- A small collection: id 1 under personal 2024-01-01, id 3 in the pool. -/
def demoStore : TaskStore :=
  { personal := [("2024-01-01", [pendingTask 1])], work := [],
    pool := [{ pendingTask 3 with originalDate := none }] }

/-! ## C2 -/

/-- C2 counterexample: on a collection in which the addressed
(category, viewed-date) bucket object does not exist, completing or
deleting by id does not silently no-op — reading the bucket throws a
TypeError (here `Except.error ()`). -/
theorem c2_counterexample :
    completeTask "personal" "2024-01-01" 5 emptyStore = .error () ∧
    deleteTask "work" "2024-01-01" 5 demoStore = .error () :=
  ⟨rfl, rfl⟩

/-- C2 as amended: every lifecycle operation whose subject id is absent
from the addressed existing bucket (or from the pool, for the pool
variants) is a silent no-op leaving the collection unchanged; only when
the addressed bucket object itself is missing does the operation throw. -/
theorem c2_missing_id_noop (st : TaskStore) (c cTo k tgtKey newText : String)
    (m : CatMap) (tasks : List Task) (taskId freshId targetId : Nat)
    (insBefore : Bool)
    (hc : getCatMap st c = some m) (hb : getB m k = some tasks)
    (habs : ∀ t ∈ tasks, t.id ≠ taskId)
    (hpabs : ∀ t ∈ st.pool, t.id ≠ taskId) :
    completeTask c k taskId st = .ok st ∧
    completeTask "pool" k taskId st = .ok st ∧
    uncompleteTask c k taskId st = .ok st ∧
    uncompleteTask "pool" k taskId st = .ok st ∧
    toggleTaskInProgress c k taskId st = .ok st ∧
    toggleTaskInProgress "pool" k taskId st = .ok st ∧
    editTask c k taskId newText st = .ok st ∧
    editTask "pool" k taskId newText st = .ok st ∧
    moveTaskToDate c k tgtKey taskId freshId st = .ok st ∧
    moveTaskBetweenCategories c cTo k taskId freshId st = .ok st ∧
    moveTaskToPool c k taskId freshId st = .ok st ∧
    movePoolTaskToDate cTo k taskId freshId st = st ∧
    movePoolTaskToSpecificDate tgtKey taskId freshId st = st ∧
    deleteTask c k taskId st = .ok st ∧
    deleteTask "pool" k taskId st = .ok st ∧
    reorderTasks c k taskId targetId insBefore st = .ok st ∧
    reorderTasks "pool" k taskId targetId insBefore st = .ok st := by
  have hcp : ¬ c = "pool" := ne_pool_of_getCatMap hc
  have hfind : tasks.find? (idIs taskId) = none := find?_idIs_eq_none habs
  have hpfind : st.pool.find? (idIs taskId) = none := find?_idIs_eq_none hpabs
  refine ⟨?_, ?_, ?_, ?_, ?_, ?_, ?_, ?_, ?_, ?_, ?_, ?_, ?_, ?_, ?_, ?_, ?_⟩
  · simp [completeTask, hcp, hc, hb, hfind]
  · simp [completeTask, completePoolTask, hpfind]
  · simp [uncompleteTask, hcp, hc, hb, hfind]
  · simp [uncompleteTask, hpfind]
  · simp [toggleTaskInProgress, hcp, hc, hb, hfind]
  · simp [toggleTaskInProgress, hpfind]
  · simp [editTask, hcp, hc, hb, hfind]
  · simp [editTask, hpfind]
  · simp [moveTaskToDate, hc, hb, hfind]
  · simp [moveTaskBetweenCategories, hc, hb, hfind]
  · simp [moveTaskToPool, hc, hb, hfind]
  · simp [movePoolTaskToDate, hpfind]
  · simp [movePoolTaskToSpecificDate, hpfind]
  · simp [deleteTask, hcp, hc, hb, hfind]
  · simp [deleteTask, removeFirst_eq_self_of_find?_none hpfind]
  · simp [reorderTasks, hcp, hc, hb, reorderList_of_absent hfind,
      setB_eq_self hb, setCatMap_self hc]
  · simp [reorderTasks, reorderList_of_absent hpfind]

/-- Witness for C2: the no-op conclusion at a concrete collection whose
addressed bucket exists but lacks the id. -/
theorem c2_missing_id_noop_witness :
    completeTask "personal" "2024-01-01" 2 demoStore = .ok demoStore :=
  (c2_missing_id_noop demoStore "personal" "work" "2024-01-01" "2024-01-02" "x"
    demoStore.personal [pendingTask 1] 2 99 98 true rfl rfl
    (by decide) (by decide)).1

/-! ## C10 -/

/-- A collection with id 1 under personal 2024-01-01 and an existing empty
bucket under personal 2024-01-02. -/
def twoDayStore : TaskStore :=
  { personal := [("2024-01-01", [pendingTask 1]), ("2024-01-02", [])],
    work := [], pool := [] }

/-- C10 counterexample: deleting id 1 while 2024-01-02 is the viewed date
leaves the collection unchanged although id 1 is present under 2024-01-01
— delete searches only the viewed bucket, not whichever bucket holds the
id; and with a missing viewed bucket it throws instead of no-opping. -/
theorem c10_counterexample :
    deleteTask "personal" "2024-01-02" 1 twoDayStore = .ok twoDayStore ∧
    getB twoDayStore.personal "2024-01-01" = some [pendingTask 1] ∧
    deleteTask "personal" "2099-01-01" 7 twoDayStore = .error () :=
  ⟨rfl, rfl, rfl⟩

/-- C10 as amended: delete removes the first task with the given id from
the pool (category "pool") or from the given category's bucket at the
currently viewed date only; buckets other than the addressed one are
untouched, and the operation is a no-op when the id is absent from that
bucket. -/
theorem c10_delete_scope (st : TaskStore) (c k : String) (m : CatMap)
    (tasks : List Task) (taskId : Nat)
    (hc : getCatMap st c = some m) (hb : getB m k = some tasks) :
    deleteTask c k taskId st
      = .ok (setCatMap st c (setB m k (removeFirst (idIs taskId) tasks))) ∧
    (∀ k', k' ≠ k →
      getB (setB m k (removeFirst (idIs taskId) tasks)) k' = getB m k') ∧
    deleteTask "pool" k taskId st
      = .ok { st with pool := removeFirst (idIs taskId) st.pool } := by
  have hcp : ¬ c = "pool" := ne_pool_of_getCatMap hc
  refine ⟨?_, ?_, ?_⟩
  · cases hfind : tasks.find? (idIs taskId) with
    | none =>
      rw [removeFirst_eq_self_of_find?_none hfind, setB_eq_self hb,
        setCatMap_self hc]
      simp [deleteTask, hcp, hc, hb, hfind]
    | some t => simp [deleteTask, hcp, hc, hb, hfind]
  · exact fun k' hk' => getB_setB_ne m _ hk'
  · simp [deleteTask]

/-! ## C5 -/

/-- C5 counterexample: moving a task to the adjacent date leaves the
origin stub in place and inserts a copy, so the total task count across
the whole collection grows from 2 to 3 — the date-move is not
count-preserving. -/
theorem c5_counterexample :
    totalCount demoStore = 2 ∧
    (moveTaskToDate "personal" "2024-01-01" "2024-01-02" 1 99 demoStore).map totalCount
      = Except.ok 3 :=
  ⟨rfl, rfl⟩

/-- C5 as amended: moving between categories and to or from the pool is
count-preserving whenever the moved id is present, but moving to an
adjacent date increases the total task count by exactly one (the origin
copy is retained as a stub and a fresh copy is inserted); only the latter
deviates from the claim. -/
theorem c5_relocation_counts (st : TaskStore) (cFrom cTo viewKey tgtKey : String)
    (mFrom mTo : CatMap) (fromTasks : List Task) (taskId freshId poolTaskId : Nat)
    (task ptask : Task)
    (hc : getCatMap st cFrom = some mFrom)
    (hcTo : getCatMap st cTo = some mTo)
    (hb : getB mFrom viewKey = some fromTasks)
    (hfind : fromTasks.find? (idIs taskId) = some task) :
    (∀ st', moveTaskBetweenCategories cFrom cTo viewKey taskId freshId st = .ok st' →
      totalCount st' = totalCount st) ∧
    (∀ st', moveTaskToPool cFrom viewKey taskId freshId st = .ok st' →
      totalCount st' = totalCount st) ∧
    (st.pool.find? (idIs poolTaskId) = some ptask →
      totalCount (movePoolTaskToDate cTo viewKey poolTaskId freshId st) = totalCount st) ∧
    (st.pool.find? (idIs poolTaskId) = some ptask →
      totalCount (movePoolTaskToSpecificDate tgtKey poolTaskId freshId st) = totalCount st) ∧
    (∀ st', moveTaskToDate cFrom viewKey tgtKey taskId freshId st = .ok st' →
      totalCount st' = totalCount st + 1) := by
  have hlenR := length_removeFirst hfind
  have e1 := countB_setB_some (removeFirst (idIs taskId) fromTasks) hb
  refine ⟨?_, ?_, ?_, ?_, ?_⟩
  · intro st' h
    rcases getCatMap_cases hc with ⟨rfl, rfl⟩ | ⟨rfl, rfl⟩ <;>
      rcases getCatMap_cases hcTo with ⟨rfl, rfl⟩ | ⟨rfl, rfl⟩ <;>
        simp [moveTaskBetweenCategories, hb, hfind, getCatMap, setCatMap] at h <;>
          subst h <;>
            simp only [totalCount] <;>
              rw [countB_push] <;>
                omega
  · intro st' h
    rcases getCatMap_cases hc with ⟨rfl, rfl⟩ | ⟨rfl, rfl⟩ <;>
      simp [moveTaskToPool, hb, hfind, getCatMap, setCatMap] at h <;>
        subst h <;>
          simp only [totalCount, List.length_append, List.length_cons, List.length_nil] <;>
            omega
  · intro hpfind
    have hlenP := length_removeFirst hpfind
    rcases getCatMap_cases hcTo with ⟨rfl, rfl⟩ | ⟨rfl, rfl⟩ <;>
      simp [movePoolTaskToDate, hpfind, getCatMap, setCatMap, totalCount] <;>
        rw [countB_push] <;>
          omega
  · intro hpfind
    have hlenP := length_removeFirst hpfind
    simp [movePoolTaskToSpecificDate, hpfind, totalCount]
    rw [countB_push]
    omega
  · intro st' h
    have e3 := countB_setB_some
      (updateFirst (idIs taskId) (fun t => { t with moved := true }) fromTasks) hb
    have e4 := length_updateFirst (idIs taskId)
      (fun t => { t with moved := true }) fromTasks
    rcases getCatMap_cases hc with ⟨rfl, rfl⟩ | ⟨rfl, rfl⟩ <;>
      simp [moveTaskToDate, hb, hfind, getCatMap, setCatMap] at h <;>
        subst h <;>
          simp only [totalCount] <;>
            rw [countB_push] <;>
              omega

/-- Witness for C5: moving id 1 from personal to work keeps the total
count of the small collection at 2. -/
theorem c5_relocation_counts_witness :
    totalCount { personal := [("2024-01-01", ([] : List Task))],
                 work := [("2024-01-01", [pendingTask 50])],
                 pool := [{ pendingTask 3 with originalDate := none }] }
      = totalCount demoStore :=
  (c5_relocation_counts demoStore "personal" "work" "2024-01-01" "2024-01-02"
    demoStore.personal demoStore.work [pendingTask 1] 1 50 7
    (pendingTask 1) (pendingTask 1) rfl rfl rfl rfl).1 _ rfl


/-! ## C8 -/

/-- The status reset of `moveTaskToPool` never produces a completed
status. -/
theorem status_reset_ne (s : String) :
    (if s = "completed" then "pending" else s) ≠ "completed" := by
  by_cases h : s = "completed" <;> simp [h]

/-- The pool invariant survives the status flip of the pool progress
toggle. -/
theorem toggleFlip_status_ne {t : Task} (h : t.status ≠ "completed") :
    (toggleFlip t).status ≠ "completed" := by
  unfold toggleFlip
  by_cases h1 : t.status = "in-progress"
  · simp [h1]
  · by_cases h2 : t.status = "pending"
    · simp [h1, h2]
    · simp [h1, h2, h]

/-- Completing a pool task removes it from the pool, so the pool invariant
survives. -/
theorem poolInv_completePoolTask (k : String) (taskId : Nat) {st : TaskStore}
    (hp : poolInv st) : poolInv (completePoolTask k taskId st) := by
  unfold completePoolTask
  split
  · exact hp
  · exact fun t ht => hp t (mem_removeFirst ht)

/-- A remote snapshot violating the pool invariant: its pool holds a
completed, dated task. -/
def badCloud : TaskStore :=
  { personal := [], work := [],
    pool := [{ pendingTask 9 with
                 status := "completed", completed := true,
                 completedDate := some "2024-01-01" }] }

/-- C8 counterexample: the pull operation replaces the local collection
wholesale with the downloaded snapshot, so a remote snapshot whose pool
holds a completed task with an original date lands in the local pool
unchanged — the pool invariant does not survive every pull. -/
theorem c8_counterexample :
    poolInv demoStore ∧ ¬ poolInv (pullTasks badCloud demoStore) :=
  ⟨by decide, by decide⟩

/-- C8 as amended: every in-app operation preserves the pool invariant —
move-to-pool resets `originalDate` and any completed state, pool
completion removes the task from the pool, and all other operations either
leave the pool untouched or keep its tasks' `originalDate = null` and
status away from completed — while the pull operation preserves it only
when the downloaded snapshot itself satisfies it. -/
theorem c8_pool_invariant (st : TaskStore) (hp : poolInv st) :
    (∀ cloudData, poolInv cloudData → poolInv (pullTasks cloudData st)) ∧
    (∀ text freshId, poolInv (addPoolTask text freshId st)) ∧
    (∀ c k text freshId, poolInv (addTask c k text freshId st)) ∧
    (∀ k taskId, poolInv (completePoolTask k taskId st)) ∧
    (∀ c k taskId st', completeTask c k taskId st = .ok st' → poolInv st') ∧
    (∀ c k taskId st', uncompleteTask c k taskId st = .ok st' → poolInv st') ∧
    (∀ c k taskId st', toggleTaskInProgress c k taskId st = .ok st' → poolInv st') ∧
    (∀ c k taskId newText st', editTask c k taskId newText st = .ok st' → poolInv st') ∧
    (∀ c viewKey tgtKey taskId freshId st',
      moveTaskToDate c viewKey tgtKey taskId freshId st = .ok st' → poolInv st') ∧
    (∀ cF cT k taskId freshId st',
      moveTaskBetweenCategories cF cT k taskId freshId st = .ok st' → poolInv st') ∧
    (∀ cF k taskId freshId st',
      moveTaskToPool cF k taskId freshId st = .ok st' → poolInv st') ∧
    (∀ cT k taskId freshId, poolInv (movePoolTaskToDate cT k taskId freshId st)) ∧
    (∀ tgtKey taskId freshId, poolInv (movePoolTaskToSpecificDate tgtKey taskId freshId st)) ∧
    (∀ c k taskId st', deleteTask c k taskId st = .ok st' → poolInv st') ∧
    (∀ c k dId tId ins st', reorderTasks c k dId tId ins st = .ok st' → poolInv st') := by
  have hpool_eq : ∀ st' : TaskStore, st'.pool = st.pool → poolInv st' :=
    fun st' h t ht => hp t (h ▸ ht)
  refine ⟨?_, ?_, ?_, ?_, ?_, ?_, ?_, ?_, ?_, ?_, ?_, ?_, ?_, ?_, ?_⟩
  · exact fun cloudData hc => hc
  · intro text freshId
    unfold addPoolTask
    split
    · exact hp
    · intro t ht
      rcases List.mem_append.mp ht with ht | ht
      · exact hp t ht
      · rw [List.mem_singleton.mp ht]
        exact ⟨rfl, by simp⟩
  · intro c k text freshId
    unfold addTask
    split
    · exact hp
    · split
      · exact hp
      · exact hpool_eq _ (setCatMap_pool ..)
  · exact fun k taskId => poolInv_completePoolTask k taskId hp
  · intro c k taskId st' h
    unfold completeTask at h
    split at h
    · injection h with h
      exact h ▸ poolInv_completePoolTask k taskId hp
    · split at h
      · cases h
      · split at h
        · cases h
        · split at h
          · injection h with h
            exact h ▸ hp
          · injection h with h
            exact h ▸ hpool_eq _ (setCatMap_pool ..)
  · intro c k taskId st' h
    unfold uncompleteTask at h
    split at h
    · split at h
      · injection h with h
        exact h ▸ hp
      · injection h with h
        subst h
        intro t ht
        refine updateFirst_forall hp ?_ t ht
        intro u hu _
        exact ⟨(hp u hu).1, by simp [uncompleteFlip]⟩
    · split at h
      · cases h
      · split at h
        · cases h
        · split at h
          · injection h with h
            exact h ▸ hp
          · injection h with h
            exact h ▸ hpool_eq _ (setCatMap_pool ..)
  · intro c k taskId st' h
    unfold toggleTaskInProgress at h
    split at h
    · split at h
      · injection h with h
        exact h ▸ hp
      · injection h with h
        subst h
        intro t ht
        refine updateFirst_forall hp ?_ t ht
        intro u hu _
        exact ⟨(hp u hu).1, toggleFlip_status_ne (hp u hu).2⟩
    · split at h
      · cases h
      · split at h
        · cases h
        · split at h
          · injection h with h
            exact h ▸ hp
          · injection h with h
            exact h ▸ hpool_eq _ (setCatMap_pool ..)
  · intro c k taskId newText st' h
    unfold editTask at h
    split at h
    · split at h
      · injection h with h
        exact h ▸ hp
      · split at h
        · injection h with h
          exact h ▸ hp
        · injection h with h
          subst h
          intro t ht
          refine updateFirst_forall hp ?_ t ht
          intro u hu _
          exact (hp u hu)
    · split at h
      · cases h
      · split at h
        · cases h
        · split at h
          · injection h with h
            exact h ▸ hp
          · split at h
            · injection h with h
              exact h ▸ hp
            · injection h with h
              exact h ▸ hpool_eq _ (setCatMap_pool ..)
  · intro c viewKey tgtKey taskId freshId st' h
    unfold moveTaskToDate at h
    split at h
    · cases h
    · split at h
      · cases h
      · split at h
        · injection h with h
          exact h ▸ hp
        · injection h with h
          exact h ▸ hpool_eq _ (setCatMap_pool ..)
  · intro cF cT k taskId freshId st' h
    unfold moveTaskBetweenCategories at h
    split at h
    · cases h
    · split at h
      · cases h
      · split at h
        · injection h with h
          exact h ▸ hp
        · dsimp only at h
          split at h
          · injection h with h
            subst h
            exact hpool_eq _ (setCatMap_pool ..)
          · injection h with h
            subst h
            refine hpool_eq _ ?_
            rw [setCatMap_pool, setCatMap_pool]
  · intro cF k taskId freshId st' h
    unfold moveTaskToPool at h
    split at h
    · cases h
    · split at h
      · cases h
      · split at h
        · injection h with h
          exact h ▸ hp
        · injection h with h
          subst h
          intro t ht
          simp only [setCatMap_pool] at ht
          rcases List.mem_append.mp ht with ht | ht
          · exact hp t ht
          · rw [List.mem_singleton.mp ht]
            exact ⟨rfl, status_reset_ne _⟩
  · intro cT k taskId freshId
    unfold movePoolTaskToDate
    split
    · exact hp
    · dsimp only
      split
      · exact fun t ht => hp t (mem_removeFirst ht)
      · intro t ht
        rw [setCatMap_pool] at ht
        exact hp t (mem_removeFirst ht)
  · intro tgtKey taskId freshId
    unfold movePoolTaskToSpecificDate
    split
    · exact hp
    · exact fun t ht => hp t (mem_removeFirst ht)
  · intro c k taskId st' h
    unfold deleteTask at h
    split at h
    · injection h with h
      subst h
      exact fun t ht => hp t (mem_removeFirst ht)
    · split at h
      · cases h
      · split at h
        · cases h
        · split at h
          · injection h with h
            exact h ▸ hp
          · injection h with h
            exact h ▸ hpool_eq _ (setCatMap_pool ..)
  · intro c k dId tId ins st' h
    unfold reorderTasks at h
    split at h
    · injection h with h
      subst h
      exact fun t ht => hp t (mem_reorderList ht)
    · split at h
      · cases h
      · split at h
        · cases h
        · injection h with h
          exact h ▸ hpool_eq _ (setCatMap_pool ..)

/-- Witness for C8: the pool invariant holds after pulling a snapshot that
itself satisfies it. -/
theorem c8_pool_invariant_witness :
    poolInv (pullTasks emptyStore demoStore) :=
  (c8_pool_invariant demoStore (by decide)).1 emptyStore (by decide)


/-! ## C6 -/

/-- C6: moving a task to an adjacent date never deletes the origin task —
it marks it `moved = true` in place, keeping the origin bucket's length —
and inserts exactly one new task at the end of the destination bucket of
the same category, with the fresh id (different from the origin id when
the mint differs, as `Date.now()` does for non-simultaneous creations),
`moved = false` and the source's `originalDate`; every other bucket, the
other category and the pool are unchanged. -/
theorem c6_move_to_adjacent_date (st : TaskStore) (c viewKey tgtKey : String)
    (m : CatMap) (tasks : List Task) (taskId freshId : Nat) (task : Task)
    (hc : getCatMap st c = some m)
    (hb : getB m viewKey = some tasks)
    (hfind : tasks.find? (idIs taskId) = some task)
    (hkey : tgtKey ≠ viewKey)
    (hfresh : freshId ≠ taskId) :
    ∃ st' m',
      moveTaskToDate c viewKey tgtKey taskId freshId st = .ok st' ∧
      getCatMap st' c = some m' ∧
      getB m' viewKey
        = some (updateFirst (idIs taskId) (fun t => { t with moved := true }) tasks) ∧
      (updateFirst (idIs taskId) (fun t => { t with moved := true }) tasks).length
        = tasks.length ∧
      ({ task with moved := true } : Task)
        ∈ updateFirst (idIs taskId) (fun t => { t with moved := true }) tasks ∧
      task.id = taskId ∧
      getB m' tgtKey
        = some ((getB m tgtKey).getD []
            ++ [{ task with id := freshId, moved := false }]) ∧
      ({ task with id := freshId, moved := false } : Task).id ≠ task.id ∧
      ({ task with id := freshId, moved := false } : Task).originalDate
        = task.originalDate ∧
      ({ task with id := freshId, moved := false } : Task).moved = false ∧
      (∀ k', k' ≠ viewKey → k' ≠ tgtKey → getB m' k' = getB m k') ∧
      (∀ c', c' ≠ c → getCatMap st' c' = getCatMap st c') ∧
      st'.pool = st.pool := by
  have hne : viewKey ≠ tgtKey := Ne.symm hkey
  have hdest : getB (setB m viewKey
      (updateFirst (idIs taskId) (fun t => { t with moved := true }) tasks)) tgtKey
      = getB m tgtKey := getB_setB_ne m _ hkey
  have hrun : moveTaskToDate c viewKey tgtKey taskId freshId st
      = .ok (setCatMap st c (setB
          (setB m viewKey
            (updateFirst (idIs taskId) (fun t => { t with moved := true }) tasks))
          tgtKey
          ((getB (setB m viewKey
              (updateFirst (idIs taskId) (fun t => { t with moved := true }) tasks))
            tgtKey).getD []
            ++ [{ task with id := freshId, moved := false }]))) := by
    simp only [moveTaskToDate, hc, hb, hfind]
  refine ⟨_, _, hrun, getCatMap_setCatMap_self _ hc, ?_, length_updateFirst .. ,
    updateFirst_mem_find? hfind, id_eq_of_find?_idIs hfind, ?_, ?_, rfl, rfl,
    ?_, fun c' hc' => getCatMap_setCatMap_ne _ hc', setCatMap_pool ..⟩
  · rw [getB_setB_ne _ _ hne, getB_setB_self]
  · rw [getB_setB_self, hdest]
  · show freshId ≠ task.id
    rw [id_eq_of_find?_idIs hfind]
    exact hfresh
  · intro k' hkv hkt
    rw [getB_setB_ne _ _ hkt, getB_setB_ne _ _ hkv]

/-- Witness for C6: moving id 1 one day forward from the small collection
succeeds and leaves the pool unchanged. -/
theorem c6_move_to_adjacent_date_witness :
    ∃ st', moveTaskToDate "personal" "2024-01-01" "2024-01-02" 1 42 demoStore
        = .ok st' ∧ st'.pool = demoStore.pool := by
  obtain ⟨st', m', h1, h2, h3, h4, h5, h6, h7, h8, h9, h10, h11, h12, h13⟩ :=
    c6_move_to_adjacent_date demoStore "personal" "2024-01-01" "2024-01-02"
      demoStore.personal [pendingTask 1] 1 42 (pendingTask 1)
      rfl rfl rfl (by decide) (by decide)
  exact ⟨st', h1, h13⟩

/-- Witness for C10: deleting id 1 while its own date 2024-01-01 is viewed
does splice it out of that bucket. -/
theorem c10_delete_scope_witness :
    deleteTask "personal" "2024-01-01" 1 twoDayStore
      = .ok (setCatMap twoDayStore "personal"
          (setB twoDayStore.personal "2024-01-01"
            (removeFirst (idIs 1) [pendingTask 1]))) :=
  (c10_delete_scope twoDayStore "personal" "2024-01-01" twoDayStore.personal
    [pendingTask 1] 1 rfl rfl).1


/-! ## C1 -/

/-- A completed task with id 1, consistent with the redundancy invariant. -/
def completedTask1 : Task :=
  { pendingTask 1 with
      status := "completed", completed := true,
      completedDate := some "2024-01-01" }

/-- A collection holding only the completed task id 1. -/
def completedStore : TaskStore :=
  { personal := [("2024-01-01", [completedTask1])], work := [], pool := [] }

/-- The same collection after toggling id 1: `completed` was reset to
false while `status` stayed "completed". -/
def completedStoreAfter : TaskStore :=
  { personal := [("2024-01-01", [{ completedTask1 with completed := false }])],
    work := [], pool := [] }

/-- C1 counterexample: applying the in-progress toggle to a task whose
status is "completed" assigns `completed = false` while leaving
`status = "completed"`, so the toggle does not preserve the equality
`completed == (status == "completed")` for tasks of every status. -/
theorem c1_counterexample :
    storeInv completedStore ∧
    toggleTaskInProgress "personal" "2024-01-01" 1 completedStore
      = .ok completedStoreAfter ∧
    ¬ storeInv completedStoreAfter :=
  ⟨by decide, rfl, by decide⟩

/-- C1 as amended: every core operation preserves the redundancy
invariant `completed == (status == "completed")` over the whole
collection — with the in-progress toggle restricted to ids that are not
in completed status, as the UI enforces, and the merge taken against a
remote snapshot whose tasks themselves satisfy the invariant. -/
theorem c1_completed_redundancy (st : TaskStore) (hinv : storeInv st) :
    (∀ c k text freshId, storeInv (addTask c k text freshId st)) ∧
    (∀ text freshId, storeInv (addPoolTask text freshId st)) ∧
    (∀ k taskId, storeInv (completePoolTask k taskId st)) ∧
    (∀ c k taskId st', completeTask c k taskId st = .ok st' → storeInv st') ∧
    (∀ c k taskId st', uncompleteTask c k taskId st = .ok st' → storeInv st') ∧
    (∀ c k taskId newText st',
      editTask c k taskId newText st = .ok st' → storeInv st') ∧
    (∀ c k taskId st', noCompletedWithId st taskId →
      toggleTaskInProgress c k taskId st = .ok st' → storeInv st') ∧
    (∀ c viewKey tgtKey taskId freshId st',
      moveTaskToDate c viewKey tgtKey taskId freshId st = .ok st' → storeInv st') ∧
    (∀ cF cT k taskId freshId st',
      moveTaskBetweenCategories cF cT k taskId freshId st = .ok st' → storeInv st') ∧
    (∀ cF k taskId freshId st',
      moveTaskToPool cF k taskId freshId st = .ok st' → storeInv st') ∧
    (∀ cT k taskId freshId, storeInv (movePoolTaskToDate cT k taskId freshId st)) ∧
    (∀ tgtKey taskId freshId,
      storeInv (movePoolTaskToSpecificDate tgtKey taskId freshId st)) ∧
    (∀ c k dId tId ins st', reorderTasks c k dId tId ins st = .ok st' → storeInv st') ∧
    (∀ c k taskId st', deleteTask c k taskId st = .ok st' → storeInv st') ∧
    (∀ loc cloudData : SyncStore, syncInv loc → syncInv cloudData →
      syncInv (mergeTaskData loc cloudData)) := by
  refine ⟨?_, ?_, ?_, ?_, ?_, ?_, ?_, ?_, ?_, ?_, ?_, ?_, ?_, ?_, ?_⟩
  · intro c k text freshId
    unfold addTask
    split
    · exact hinv
    · split
      · exact hinv
      · rename_i x m heqc
        exact storeInv_setCatMap _ heqc hinv
          (mapInv_setB (mapInv_of_getCatMap hinv heqc)
            (bucketInv_append (bucketInv_getD _ (mapInv_of_getCatMap hinv heqc))
              (bucketInv_singleton (by simp [taskInv]))))
  · intro text freshId
    unfold addPoolTask
    split
    · exact hinv
    · exact ⟨hinv.1, hinv.2.1,
        bucketInv_append hinv.2.2 (bucketInv_singleton (by simp [taskInv]))⟩
  · exact fun k taskId => storeInv_completePoolTask k taskId hinv
  · intro c k taskId st' h
    unfold completeTask at h
    split at h
    · injection h with h
      exact h ▸ storeInv_completePoolTask k taskId hinv
    · split at h
      · cases h
      · split at h
        · cases h
        · split at h
          · injection h with h
            exact h ▸ hinv
          · injection h with h
            subst h
            rename_i x1 m heqc x2 tasks heqb x3 tsk heqf
            exact storeInv_setCatMap _ heqc hinv
              (mapInv_setB (mapInv_of_getCatMap hinv heqc)
                (updateFirst_forall (bucketInv_of_store hinv heqc heqb)
                  (fun t ht _ => taskInv_completeFlip k t)))
  · intro c k taskId st' h
    unfold uncompleteTask at h
    split at h
    · split at h
      · injection h with h
        exact h ▸ hinv
      · injection h with h
        subst h
        exact ⟨hinv.1, hinv.2.1,
          updateFirst_forall hinv.2.2 (fun t _ _ => taskInv_uncompleteFlip t)⟩
    · split at h
      · cases h
      · split at h
        · cases h
        · split at h
          · injection h with h
            exact h ▸ hinv
          · injection h with h
            subst h
            rename_i x1 m heqc x2 tasks heqb x3 tsk heqf
            exact storeInv_setCatMap _ heqc hinv
              (mapInv_setB (mapInv_of_getCatMap hinv heqc)
                (updateFirst_forall (bucketInv_of_store hinv heqc heqb)
                  (fun t _ _ => taskInv_uncompleteFlip t)))
  · intro c k taskId newText st' h
    unfold editTask at h
    split at h
    · split at h
      · injection h with h
        exact h ▸ hinv
      · split at h
        · injection h with h
          exact h ▸ hinv
        · injection h with h
          subst h
          exact ⟨hinv.1, hinv.2.1,
            updateFirst_forall hinv.2.2
              (fun t ht _ => taskInv_textSet (hinv.2.2 t ht) _)⟩
    · split at h
      · cases h
      · split at h
        · cases h
        · split at h
          · injection h with h
            exact h ▸ hinv
          · split at h
            · injection h with h
              exact h ▸ hinv
            · injection h with h
              subst h
              rename_i x1 m heqc x2 tasks heqb x3 tsk heqf hne
              exact storeInv_setCatMap _ heqc hinv
                (mapInv_setB (mapInv_of_getCatMap hinv heqc)
                  (updateFirst_forall (bucketInv_of_store hinv heqc heqb)
                    (fun t ht _ =>
                      taskInv_textSet (bucketInv_of_store hinv heqc heqb t ht) _)))
  · intro c k taskId st' hnc h
    unfold toggleTaskInProgress at h
    split at h
    · split at h
      · injection h with h
        exact h ▸ hinv
      · injection h with h
        subst h
        refine ⟨hinv.1, hinv.2.1, updateFirst_forall hinv.2.2 ?_⟩
        intro t ht hidt
        exact taskInv_toggleFlip (hnc.1 t ht (by simpa [idIs] using hidt))
    · split at h
      · cases h
      · split at h
        · cases h
        · split at h
          · injection h with h
            exact h ▸ hinv
          · injection h with h
            subst h
            rename_i x1 m heqc x2 tasks heqb x3 tsk heqf
            refine storeInv_setCatMap _ heqc hinv
              (mapInv_setB (mapInv_of_getCatMap hinv heqc)
                (updateFirst_forall (bucketInv_of_store hinv heqc heqb) ?_))
            intro t ht hidt
            have htid : t.id = taskId := by simpa [idIs] using hidt
            refine taskInv_toggleFlip ?_
            rcases getCatMap_cases heqc with ⟨rfl, hm⟩ | ⟨rfl, hm⟩
            · exact hnc.2.1 (k, tasks) (getB_mem (hm ▸ heqb)) t ht htid
            · exact hnc.2.2 (k, tasks) (getB_mem (hm ▸ heqb)) t ht htid
  · intro c viewKey tgtKey taskId freshId st' h
    unfold moveTaskToDate at h
    split at h
    · cases h
    · split at h
      · cases h
      · split at h
        · injection h with h
          exact h ▸ hinv
        · injection h with h
          subst h
          rename_i x1 m heqc x2 tasks heqb x3 tsk heqf
          have hbt := bucketInv_of_store hinv heqc heqb
          have hm1 : mapInv (setB m viewKey
              (updateFirst (idIs taskId)
                (fun t => { t with moved := true }) tasks)) :=
            mapInv_setB (mapInv_of_getCatMap hinv heqc)
              (updateFirst_forall hbt
                (fun t ht _ => taskInv_movedTrue (hbt t ht)))
          exact storeInv_setCatMap _ heqc hinv
            (mapInv_setB hm1
              (bucketInv_append (bucketInv_getD _ hm1)
                (bucketInv_singleton
                  (taskInv_idMoved
                    (hbt tsk (List.mem_of_find?_eq_some heqf)) _ _))))
  · intro cF cT k taskId freshId st' h
    unfold moveTaskBetweenCategories at h
    split at h
    · cases h
    · split at h
      · cases h
      · split at h
        · injection h with h
          exact h ▸ hinv
        · dsimp only at h
          rename_i x1 mF heqc x2 fromTasks heqb x3 tsk heqf
          have hbt := bucketInv_of_store hinv heqc heqb
          have hst1 : storeInv (setCatMap st cF
              (setB mF k (removeFirst (idIs taskId) fromTasks))) :=
            storeInv_setCatMap _ heqc hinv
              (mapInv_setB (mapInv_of_getCatMap hinv heqc)
                (bucketInv_removeFirst hbt))
          split at h
          · injection h with h
            exact h ▸ hst1
          · injection h with h
            subst h
            rename_i x4 mTo heqTo
            exact storeInv_setCatMap _ heqTo hst1
              (mapInv_setB (mapInv_of_getCatMap hst1 heqTo)
                (bucketInv_append
                  (bucketInv_getD _ (mapInv_of_getCatMap hst1 heqTo))
                  (bucketInv_singleton
                    (taskInv_idMoved
                      (hbt tsk (List.mem_of_find?_eq_some heqf)) _ _))))
  · intro cF k taskId freshId st' h
    unfold moveTaskToPool at h
    split at h
    · cases h
    · split at h
      · cases h
      · split at h
        · injection h with h
          exact h ▸ hinv
        · injection h with h
          subst h
          rename_i x1 mF heqc x2 fromTasks heqb x3 tsk heqf
          have hstc : storeInv (setCatMap st cF
              (setB mF k (removeFirst (idIs taskId) fromTasks))) :=
            storeInv_setCatMap _ heqc hinv
              (mapInv_setB (mapInv_of_getCatMap hinv heqc)
                (bucketInv_removeFirst (bucketInv_of_store hinv heqc heqb)))
          exact ⟨hstc.1, hstc.2.1,
            bucketInv_append hinv.2.2
              (bucketInv_singleton (taskInv_poolReset _ _))⟩
  · intro cT k taskId freshId
    unfold movePoolTaskToDate
    split
    · exact hinv
    · dsimp only
      rename_i x ptask heqf
      have hst1 : storeInv { st with pool := removeFirst (idIs taskId) st.pool } :=
        ⟨hinv.1, hinv.2.1, bucketInv_removeFirst hinv.2.2⟩
      split
      · exact hst1
      · rename_i x2 m heq2
        exact storeInv_setCatMap _ heq2 hst1
          (mapInv_setB (mapInv_of_getCatMap hst1 heq2)
            (bucketInv_append (bucketInv_getD _ (mapInv_of_getCatMap hst1 heq2))
              (bucketInv_singleton
                (taskInv_poolOut
                  (hinv.2.2 ptask (List.mem_of_find?_eq_some heqf)) _ _ _))))
  · intro tgtKey taskId freshId
    unfold movePoolTaskToSpecificDate
    split
    · exact hinv
    · rename_i x ptask heqf
      exact ⟨mapInv_setB hinv.1
          (bucketInv_append (bucketInv_getD _ hinv.1)
            (bucketInv_singleton
              (taskInv_poolOut
                (hinv.2.2 ptask (List.mem_of_find?_eq_some heqf)) _ _ _))),
        hinv.2.1, bucketInv_removeFirst hinv.2.2⟩
  · intro c k dId tId ins st' h
    unfold reorderTasks at h
    split at h
    · injection h with h
      subst h
      exact ⟨hinv.1, hinv.2.1, bucketInv_reorderList hinv.2.2⟩
    · split at h
      · cases h
      · split at h
        · cases h
        · injection h with h
          subst h
          rename_i x1 m heqc x2 tasks heqb
          exact storeInv_setCatMap _ heqc hinv
            (mapInv_setB (mapInv_of_getCatMap hinv heqc)
              (bucketInv_reorderList (bucketInv_of_store hinv heqc heqb)))
  · intro c k taskId st' h
    unfold deleteTask at h
    split at h
    · injection h with h
      subst h
      exact ⟨hinv.1, hinv.2.1, bucketInv_removeFirst hinv.2.2⟩
    · split at h
      · cases h
      · split at h
        · cases h
        · split at h
          · injection h with h
            exact h ▸ hinv
          · injection h with h
            subst h
            rename_i x1 m heqc x2 tasks heqb x3 tsk heqf
            exact storeInv_setCatMap _ heqc hinv
              (mapInv_setB (mapInv_of_getCatMap hinv heqc)
                (bucketInv_removeFirst (bucketInv_of_store hinv heqc heqb)))
  · intro loc cloudData h1 h2
    exact ⟨mergeCatMap_mapInv h1.1 h2.1, mergeCatMap_mapInv h1.2 h2.2⟩

/-- Witness for C1: adding a task to the small collection keeps the
redundancy invariant; the toggle conjunct applies to the non-completed
id 1. -/
theorem c1_completed_redundancy_witness :
    storeInv (addTask "personal" "2024-01-01" "Buy milk" 5 demoStore) :=
  (c1_completed_redundancy demoStore (by decide)).1 "personal" "2024-01-01"
    "Buy milk" 5

end Todo
